import Mathlib

/-!
Verification development for the `context` package: a drop-in replacement for
the Go standard library context package that adds support for waiting on
derived (child) contexts.

The embedding models the package as explicit state passing:

* `sync.WaitGroup` counters live in a heap `wgs : Nat → Nat` indexed by ids
  (they are shared by pointer in the source, so two nodes referring to the
  same id model two nodes holding the same `*sync.WaitGroup`).
  `WaitGroup.Add(1)` is `wgAdd`, `WaitGroup.Done()` is `wgDone` which faults
  (`none`, modelling Go's "negative WaitGroup counter" panic) when the counter
  is already zero, and `WaitGroup.Wait()` is modelled by `Wait`, which returns
  (`some`) exactly when the counter is zero and blocks (`none`) otherwise.
* The wrapped standard-library contexts live in a heap `inners : Nat → StdCtx`.
  The standard library is the external collaborator the package wraps; its
  model `StdCtx` carries a cancellation flag, an optional absolute deadline,
  an optional unexpected extra error (the primitive's interface does not
  forbid one), and a key/value list.
* Fresh heap cells are handed out by the allocators `nextWg` / `nextInner`.

Each node (`Node`) mirrors `ctxImpl` / `emptyCtx` from the source: a wrapped
context handle `inner`, a nullable reference `parentWg` to the parent's
children counter, and its own children counter `childrenWg`.  `kind`
distinguishes the two dynamic shapes of the source (`emptyCtx` for roots,
`ctxImpl` for derived nodes), which differ in their `Finished` method.
-/

/-- Model of a Go `error` value as returned by the wrapped context primitive:
`context.Canceled`, `context.DeadlineExceeded`, or some other error value. -/
inductive GoErr where
  | canceled
  | deadlineExceeded
  | other (msg : String)
deriving DecidableEq, Repr

/-- `var Canceled = context.Canceled`: the package just re-exposes the
standard library sentinel. -/
def Canceled : GoErr := GoErr.canceled

/-- `var DeadlineExceeded = context.DeadlineExceeded`: the package just
re-exposes the standard library sentinel. -/
def DeadlineExceeded : GoErr := GoErr.deadlineExceeded

/-- Model of one wrapped standard-library context (the external primitive):
a cancellation flag, an optional absolute deadline, an optional unexpected
error supplied by the primitive, and the key/value store. -/
structure StdCtx where
  canceled : Bool
  deadline : Option Nat
  extraErr : Option GoErr
  vals : List (String × String)
deriving DecidableEq, Repr

/-- The wrapped context produced by `context.Background()` / `context.TODO()`:
never canceled, no deadline, no values. -/
def defaultStdCtx : StdCtx :=
  { canceled := false, deadline := none, extraErr := none, vals := [] }

/-- The two dynamic shapes of nodes in the source: `emptyCtx` (root nodes made
by `Background`/`TODO`) and `ctxImpl` (derived nodes). -/
inductive NodeKind where
  | root
  | derived
deriving DecidableEq, Repr

/-- One context node: the wrapped context handle, the (nullable) reference to
the parent's children counter, and the node's own children counter.  Mirrors
the `ctxImpl` struct fields `Context`, `parentWg`, `childrenWg`. -/
structure Node where
  kind : NodeKind
  inner : Nat
  parentWg : Option Nat
  childrenWg : Nat
deriving DecidableEq, Repr

/-- Global state: the heap of WaitGroup counters, the heap of wrapped
contexts, the two allocators, and the current time (used only by the wrapped
primitive's deadline logic). -/
structure GoState where
  now : Nat
  wgs : Nat → Nat
  inners : Nat → StdCtx
  nextWg : Nat
  nextInner : Nat

/-- Point update of a heap. -/
def upd {α : Type} (f : Nat → α) (i : Nat) (a : α) : Nat → α :=
  fun j => if j = i then a else f j

/-- `sync.WaitGroup.Add(n)`: atomically increase the counter. -/
def wgAdd (s : GoState) (w : Nat) (n : Nat) : GoState :=
  { s with wgs := upd s.wgs w (s.wgs w + n) }

/-- `sync.WaitGroup.Done()`: decrease the counter by one; panics (modelled as
`none`) when the counter would go negative. -/
def wgDone (s : GoState) (w : Nat) : Option GoState :=
  if s.wgs w = 0 then none
  else some { s with wgs := upd s.wgs w (s.wgs w - 1) }

/-- `Background()`: a root node (`emptyCtx`) with a fresh wrapped background
context, a nil parent counter, and a fresh zero children counter. -/
def Background (s : GoState) : GoState × Node :=
  ({ s with
      wgs := upd s.wgs s.nextWg 0,
      inners := upd s.inners s.nextInner defaultStdCtx,
      nextWg := s.nextWg + 1,
      nextInner := s.nextInner + 1 },
   { kind := NodeKind.root, inner := s.nextInner,
     parentWg := none, childrenWg := s.nextWg })

/-- `TODO()`: identical to `Background()` up to the wrapped primitive's
internal label. -/
def TODO (s : GoState) : GoState × Node :=
  Background s

/-- The wrapped primitive's `context.WithCancel`: a fresh cancellable context
derived from the given one (snapshot of its deadline, error and values). -/
def stdWithCancel (c : StdCtx) : StdCtx := c

/-- The wrapped primitive's `context.WithDeadline`: the derived context's
deadline is the earlier of the parent's and the requested one. -/
def stdWithDeadline (c : StdCtx) (d : Nat) : StdCtx :=
  { c with deadline := some (match c.deadline with
      | some pd => min pd d
      | none => d) }

/-- The wrapped primitive's `context.WithTimeout`: a deadline at now plus the
timeout. -/
def stdWithTimeout (c : StdCtx) (t : Nat) (now : Nat) : StdCtx :=
  stdWithDeadline c (now + t)

/-- `WithCancel(parent)`: wraps `context.WithCancel(parent.context())` in a new
`ctxImpl` whose parent-counter reference is `parent.wg()` (the parent's
children counter).  Returns the new node and the cancel handle (the id of the
freshly derived wrapped context, which is what the returned `CancelFunc`
cancels).  Note: the counter heap `wgs` is not touched beyond allocating the
child's own fresh zero counter. -/
def WithCancel (s : GoState) (parent : Node) : GoState × Node × Nat :=
  ({ s with
      wgs := upd s.wgs s.nextWg 0,
      inners := upd s.inners s.nextInner (stdWithCancel (s.inners parent.inner)),
      nextWg := s.nextWg + 1,
      nextInner := s.nextInner + 1 },
   { kind := NodeKind.derived, inner := s.nextInner,
     parentWg := some parent.childrenWg, childrenWg := s.nextWg },
   s.nextInner)

/-- `WithDeadline(parent, deadline)`: as `WithCancel` but the derived wrapped
context is deadline-bound. -/
def WithDeadline (s : GoState) (parent : Node) (d : Nat) : GoState × Node × Nat :=
  ({ s with
      wgs := upd s.wgs s.nextWg 0,
      inners := upd s.inners s.nextInner (stdWithDeadline (s.inners parent.inner) d),
      nextWg := s.nextWg + 1,
      nextInner := s.nextInner + 1 },
   { kind := NodeKind.derived, inner := s.nextInner,
     parentWg := some parent.childrenWg, childrenWg := s.nextWg },
   s.nextInner)

/-- `WithTimeout(parent, timeout)`: as `WithCancel` but the derived wrapped
context is timeout-bound. -/
def WithTimeout (s : GoState) (parent : Node) (t : Nat) : GoState × Node × Nat :=
  ({ s with
      wgs := upd s.wgs s.nextWg 0,
      inners := upd s.inners s.nextInner (stdWithTimeout (s.inners parent.inner) t s.now),
      nextWg := s.nextWg + 1,
      nextInner := s.nextInner + 1 },
   { kind := NodeKind.derived, inner := s.nextInner,
     parentWg := some parent.childrenWg, childrenWg := s.nextWg },
   s.nextInner)

/-- `Child(parent)`: builds a `ctxImpl` sharing the parent's wrapped context
handle (`parent.context()`), with parent-counter reference `parent.wg()` and a
fresh own counter, then registers it: `parent.wg().Add(1)`. -/
def Child (s : GoState) (parent : Node) : GoState × Node :=
  let s1 : GoState :=
    { s with wgs := upd s.wgs s.nextWg 0, nextWg := s.nextWg + 1 }
  (wgAdd s1 parent.childrenWg 1,
   { kind := NodeKind.derived, inner := parent.inner,
     parentWg := some parent.childrenWg, childrenWg := s.nextWg })

/-- Modelled from the spec: `EnableWait(node)` is called by the repository's
tests but its implementation is not among the source files.  Per the spec it
opts an already-derived node into parent wait-tracking: "given an
already-constructed child node, increment its parent's counter by one and
return the same node". -/
def EnableWait (s : GoState) (n : Node) : GoState × Node :=
  match n.parentWg with
  | some w => (wgAdd s w 1, n)
  | none => (s, n)

/-- `Finished()`: on a root node (`emptyCtx.Finished`) a plain `return`; on a
derived node (`ctxImpl.Finished`) it is `c.parentWg.Done()`, which faults when
the counter is already zero (Go panics on a negative WaitGroup counter) or
when the parent-counter pointer is nil. -/
def Finished (s : GoState) (n : Node) : Option GoState :=
  match n.kind with
  | NodeKind.root => some s
  | NodeKind.derived =>
    match n.parentWg with
    | none => none
    | some w => wgDone s w

/-- `Wait()` (spelled `WaitForChildren` in later revisions): blocks on the
node's own children counter.  Modelled as returning `some` (the unchanged
state) exactly when the counter is zero, and `none` (still blocked) when
registrations are outstanding. -/
def Wait (s : GoState) (n : Node) : Option GoState :=
  if s.wgs n.childrenWg = 0 then some s else none

/-- Invoking the cancel function returned by a derivation: flips the canceled
flag of the targeted wrapped context.  The cancel function is the wrapped
primitive's own and has no access to any WaitGroup. -/
def cancel (s : GoState) (i : Nat) : GoState :=
  { s with inners := upd s.inners i { s.inners i with canceled := true } }

/-- Advancing the clock (how a deadline or timeout elapses). -/
def setTime (s : GoState) (t : Nat) : GoState :=
  { s with now := t }

/-- Whether the wrapped context's deadline has elapsed at the current time. -/
def deadlinePassed (s : GoState) (i : Nat) : Bool :=
  match (s.inners i).deadline with
  | some d => decide (d ≤ s.now)
  | none => false

/-- The wrapped primitive's `Err()`: `context.Canceled` once canceled,
`context.DeadlineExceeded` once the deadline has elapsed, otherwise whatever
extra error the primitive carries (none in practice). -/
def innerErr (s : GoState) (i : Nat) : Option GoErr :=
  if (s.inners i).canceled then some GoErr.canceled
  else if deadlinePassed s i then some GoErr.deadlineExceeded
  else (s.inners i).extraErr

/-- `ctxImpl.Err()`: switch on `c.Context.Err()`, returning the package's
`Canceled` / `DeadlineExceeded` sentinels for the two known cases and passing
any other value (including nil) through unchanged. -/
def ctxImplErr (e : Option GoErr) : Option GoErr :=
  match e with
  | some GoErr.canceled => some Canceled
  | some GoErr.deadlineExceeded => some DeadlineExceeded
  | _ => e

/-- `Err()` on a node: derived nodes (`ctxImpl`) normalize the wrapped
context's error; root nodes (`emptyCtx`) expose the embedded context's `Err`
unchanged (the promoted method of the embedded `context.Context`). -/
def NodeErr (s : GoState) (n : Node) : Option GoErr :=
  match n.kind with
  | NodeKind.derived => ctxImplErr (innerErr s n.inner)
  | NodeKind.root => innerErr s n.inner

/-- `Deadline()` on a node: passes through to the wrapped context. -/
def NodeDeadline (s : GoState) (n : Node) : Option Nat :=
  (s.inners n.inner).deadline

/-- Whether the node's `Done()` channel is closed: the wrapped context has
been canceled or its deadline has elapsed. -/
def NodeDoneClosed (s : GoState) (n : Node) : Bool :=
  (s.inners n.inner).canceled || deadlinePassed s n.inner

/-- `Value(key)` on a node: passes through to the wrapped context. -/
def NodeValue (s : GoState) (n : Node) (key : String) : Option String :=
  ((s.inners n.inner).vals.lookup key)

/-- Create `n` children of `p` via `Child`, threading the state. -/
def iterChildS (p : Node) : Nat → GoState → GoState
  | 0, s => s
  | Nat.succ k, s => iterChildS p k (Child s p).1

/-- The list of children created by `iterChildS`. -/
def iterChildL (p : Node) : Nat → GoState → List Node
  | 0, _ => []
  | Nat.succ k, s => (Child s p).2 :: iterChildL p k (Child s p).1

/-- Call `Finished()` on each node of the list in order, faulting as soon as
any single call faults. -/
def finishAll : GoState → List Node → Option GoState
  | s, [] => some s
  | s, c :: l =>
    match Finished s c with
    | none => none
    | some s1 => finishAll s1 l

/-- Call `Wait()` `k` times in a row (reentrancy scenario). -/
def iterWait : Nat → GoState → Node → Option GoState
  | 0, s, _ => some s
  | Nat.succ k, s, n =>
    match Wait s n with
    | none => none
    | some s1 => iterWait k s1 n

/-- The empty initial state: all counters zero, all wrapped contexts default,
nothing allocated yet. -/
def emptyState : GoState :=
  { now := 0, wgs := fun _ => 0, inners := fun _ => defaultStdCtx,
    nextWg := 0, nextInner := 0 }

/-! ### A concrete scenario used to instantiate the theorems

Two root contexts `rootA` and `rootB`, one registered child of each
(`childA`, `childB`, both made by `Child`), and one unregistered derived node
`looseN` obtained from `WithCancel(rootA)` together with its cancel handle
`looseHandle`.  The states `s0c`, …, `s5c` are the successive global states. -/

def s0c : GoState := (Background emptyState).1

def rootA : Node := (Background emptyState).2

def s1c : GoState := (Background s0c).1

def rootB : Node := (Background s0c).2

def s2c : GoState := (Child s1c rootA).1

def childA : Node := (Child s1c rootA).2

def s3c : GoState := (Child s2c rootB).1

def childB : Node := (Child s2c rootB).2

def s4c : GoState := (WithCancel s3c rootA).1

def looseN : Node := (WithCancel s3c rootA).2.1

def looseHandle : Nat := (WithCancel s3c rootA).2.2

def s5c : GoState := cancel s4c looseHandle

/-! ### Basic lemmas about the heap and the counter operations -/

lemma upd_self {α : Type} (f : Nat → α) (i : Nat) (a : α) : upd f i a i = a := by
  simp [upd]

lemma upd_ne {α : Type} (f : Nat → α) (i j : Nat) (a : α) (h : j ≠ i) :
    upd f i a j = f j := by
  simp [upd, h]

lemma wgDone_eq_none_iff (s : GoState) (w : Nat) :
    wgDone s w = none ↔ s.wgs w = 0 := by
  unfold wgDone
  by_cases h : s.wgs w = 0 <;> simp [h]

lemma wgDone_some (s : GoState) (w : Nat) (h : s.wgs w ≠ 0) :
    wgDone s w = some { s with wgs := upd s.wgs w (s.wgs w - 1) } := by
  simp [wgDone, h]

/-! ### Effects of `Child` on the state -/

lemma Child_wgs_parent (s : GoState) (p : Node) (hp : p.childrenWg < s.nextWg) :
    (Child s p).1.wgs p.childrenWg = s.wgs p.childrenWg + 1 := by
  have hne : p.childrenWg ≠ s.nextWg := Nat.ne_of_lt hp
  simp [Child, wgAdd, upd_self, upd_ne _ _ _ _ hne]

lemma Child_wgs_other (s : GoState) (p : Node) (w : Nat)
    (hw : w ≠ p.childrenWg) (hw2 : w < s.nextWg) :
    (Child s p).1.wgs w = s.wgs w := by
  have hne : w ≠ s.nextWg := Nat.ne_of_lt hw2
  simp [Child, wgAdd, upd_ne _ _ _ _ hw, upd_ne _ _ _ _ hne]

lemma Child_nextWg (s : GoState) (p : Node) :
    (Child s p).1.nextWg = s.nextWg + 1 := rfl

lemma Child_node (s : GoState) (p : Node) :
    (Child s p).2 =
      Node.mk NodeKind.derived p.inner (some p.childrenWg) s.nextWg := rfl

/-! ### Effects of creating `n` children in a row -/

lemma iterChild_spec (p : Node) :
    ∀ (n : Nat) (s : GoState), p.childrenWg < s.nextWg →
      (iterChildS p n s).wgs p.childrenWg = s.wgs p.childrenWg + n ∧
      (iterChildS p n s).nextWg = s.nextWg + n ∧
      (iterChildL p n s).length = n ∧
      (∀ c ∈ iterChildL p n s,
        c.kind = NodeKind.derived ∧ c.parentWg = some p.childrenWg) := by
  intro n
  induction n with
  | zero => intro s hp; simp [iterChildS, iterChildL]
  | succ k ih =>
    intro s hp
    have hp1 : p.childrenWg < (Child s p).1.nextWg := by
      rw [Child_nextWg]; omega
    obtain ⟨h1, h2, h3, h4⟩ := ih (Child s p).1 hp1
    refine ⟨?_, ?_, ?_, ?_⟩
    · show (iterChildS p k (Child s p).1).wgs p.childrenWg = _
      rw [h1, Child_wgs_parent s p hp]; omega
    · show (iterChildS p k (Child s p).1).nextWg = _
      rw [h2, Child_nextWg]; omega
    · simp [iterChildL, h3]
    · intro c hc
      rcases List.mem_cons.mp hc with h | h
      · subst h; exact ⟨rfl, rfl⟩
      · exact h4 c h

/-! ### Effects of a run of `Finished` calls on a shared counter -/

lemma Finished_derived (s : GoState) (c : Node) (w : Nat)
    (hk : c.kind = NodeKind.derived) (hpw : c.parentWg = some w) :
    Finished s c = wgDone s w := by
  unfold Finished
  rw [hk, hpw]

lemma finishAll_cons (s : GoState) (c : Node) (tl : List Node) :
    finishAll s (c :: tl) =
      match Finished s c with
      | none => none
      | some s1 => finishAll s1 tl := rfl

lemma finishAll_ok :
    ∀ (l : List Node) (s : GoState) (w : Nat),
      (∀ c ∈ l, c.kind = NodeKind.derived ∧ c.parentWg = some w) →
      l.length ≤ s.wgs w →
      ∃ s2, finishAll s l = some s2 ∧
        s2.wgs w = s.wgs w - l.length ∧
        (∀ w2, w2 ≠ w → s2.wgs w2 = s.wgs w2) ∧
        s2.inners = s.inners ∧ s2.now = s.now ∧ s2.nextWg = s.nextWg := by
  intro l
  induction l with
  | nil => intro s w _ _; exact ⟨s, rfl, by simp, fun _ _ => rfl, rfl, rfl, rfl⟩
  | cons c tl ih =>
    intro s w hall hlen
    obtain ⟨hk, hpw⟩ := hall c (List.mem_cons_self c tl)
    have hw0 : s.wgs w ≠ 0 := by
      simp only [List.length_cons] at hlen; omega
    have hs1w : (upd s.wgs w (s.wgs w - 1)) w = s.wgs w - 1 := upd_self _ _ _
    have hlen1 :
        tl.length ≤ (GoState.mk s.now (upd s.wgs w (s.wgs w - 1)) s.inners s.nextWg s.nextInner).wgs w := by
      show tl.length ≤ (upd s.wgs w (s.wgs w - 1)) w
      rw [hs1w]
      simp only [List.length_cons] at hlen; omega
    obtain ⟨s2, hfa, hcnt, hframe, hin, hnow, hnw⟩ :=
      ih (GoState.mk s.now (upd s.wgs w (s.wgs w - 1)) s.inners s.nextWg s.nextInner) w
        (fun d hd => hall d (List.mem_cons_of_mem _ hd)) hlen1
    refine ⟨s2, ?_, ?_, ?_, hin, hnow, hnw⟩
    · rw [finishAll_cons, Finished_derived s c w hk hpw, wgDone_some s w hw0]
      exact hfa
    · have := hcnt
      rw [show (GoState.mk s.now (upd s.wgs w (s.wgs w - 1)) s.inners s.nextWg s.nextInner).wgs w
            = s.wgs w - 1 from hs1w] at this
      rw [this]
      simp only [List.length_cons]
      omega
    · intro w2 hw2
      rw [hframe w2 hw2]
      exact upd_ne _ _ _ _ hw2

lemma finishAll_fault :
    ∀ (l : List Node) (s : GoState) (w : Nat),
      (∀ c ∈ l, c.kind = NodeKind.derived ∧ c.parentWg = some w) →
      s.wgs w < l.length →
      finishAll s l = none := by
  intro l
  induction l with
  | nil => intro s w _ h; simp at h
  | cons c tl ih =>
    intro s w hall hlen
    obtain ⟨hk, hpw⟩ := hall c (List.mem_cons_self c tl)
    by_cases hw0 : s.wgs w = 0
    · rw [finishAll_cons, Finished_derived s c w hk hpw,
        (wgDone_eq_none_iff s w).mpr hw0]
    · have hs1w : (upd s.wgs w (s.wgs w - 1)) w = s.wgs w - 1 := upd_self _ _ _
      have hlen1 :
          (GoState.mk s.now (upd s.wgs w (s.wgs w - 1)) s.inners s.nextWg s.nextInner).wgs w < tl.length := by
        show (upd s.wgs w (s.wgs w - 1)) w < tl.length
        rw [hs1w]
        simp only [List.length_cons] at hlen; omega
      rw [finishAll_cons, Finished_derived s c w hk hpw, wgDone_some s w hw0]
      exact ih _ w (fun d hd => hall d (List.mem_cons_of_mem _ hd)) hlen1

/-! ### The claims -/

lemma Wait_isSome_iff (s : GoState) (n : Node) :
    (Wait s n).isSome ↔ s.wgs n.childrenWg = 0 := by
  unfold Wait
  by_cases h : s.wgs n.childrenWg = 0 <;> simp [h]

/-- Claim C1: for a parent node with `N` children registered against its own
counter via `Child`, `Wait` on the parent never returns while any of the `N`
registrations is unmatched by a `Finished` call, and returns once all `N`
children have called `Finished`, regardless of the order in which they
complete: for every duplicate-free collection `l` of those children, after
their `Finished` calls the parent's `Wait` is unblocked exactly when `l`
contains all `N` of them. -/
theorem claim_C1_wait_blocks_until_all_children_finish
    (s0 : GoState) (p : Node) (N : Nat) (l : List Node)
    (hp : p.childrenWg < s0.nextWg)
    (h0 : s0.wgs p.childrenWg = 0)
    (hsub : ∀ c ∈ l, c ∈ iterChildL p N s0)
    (hnd : l.Nodup) :
    (iterChildL p N s0).length = N ∧
    ∃ s2, finishAll (iterChildS p N s0) l = some s2 ∧
      ((Wait s2 p).isSome ↔ l.length = N) := by
  obtain ⟨h1, h2, h3, h4⟩ := iterChild_spec p N s0 hp
  have hlenN : l.length ≤ N := by
    have hsp : List.Subperm l (iterChildL p N s0) :=
      List.subperm_of_subset hnd hsub
    have hle := hsp.length_le
    rw [h3] at hle
    exact hle
  have hcnt : (iterChildS p N s0).wgs p.childrenWg = N := by
    rw [h1, h0]
    omega
  have hall : ∀ c ∈ l, c.kind = NodeKind.derived ∧ c.parentWg = some p.childrenWg :=
    fun c hc => h4 c (hsub c hc)
  have hlen : l.length ≤ (iterChildS p N s0).wgs p.childrenWg := by
    rw [hcnt]
    exact hlenN
  obtain ⟨s2, hfa, hc2, _, _, _, _⟩ :=
    finishAll_ok l (iterChildS p N s0) p.childrenWg hall hlen
  refine ⟨h3, s2, hfa, ?_⟩
  rw [Wait_isSome_iff, hc2, hcnt]
  omega

/-- Witness for C1: a root with two children made by `Child`; completing them
in reverse creation order unblocks the root's `Wait`. -/
theorem claim_C1_witness :
    (iterChildL rootA 2 s0c).length = 2 ∧
    ∃ s2, finishAll (iterChildS rootA 2 s0c) (iterChildL rootA 2 s0c).reverse = some s2 ∧
      ((Wait s2 rootA).isSome ↔ (iterChildL rootA 2 s0c).reverse.length = 2) :=
  claim_C1_wait_blocks_until_all_children_finish s0c rootA 2
    (iterChildL rootA 2 s0c).reverse
    (by decide) (by decide) (by decide) (by decide)

/-- Counterexample to C2 as stated: after `WithCancel`, `WithDeadline` or
`WithTimeout` on a freshly created root whose counter is zero, the parent's
counter is still zero, not one — the derivations do not register the child. -/
theorem claim_C2_counterexample :
    s1c.wgs rootA.childrenWg = 0 ∧
    ¬ ((WithCancel s1c rootA).1.wgs rootA.childrenWg
        = s1c.wgs rootA.childrenWg + 1) ∧
    ¬ ((WithDeadline s1c rootA 5).1.wgs rootA.childrenWg
        = s1c.wgs rootA.childrenWg + 1) ∧
    ¬ ((WithTimeout s1c rootA 5).1.wgs rootA.childrenWg
        = s1c.wgs rootA.childrenWg + 1) := by
  refine ⟨rfl, ?_, ?_, ?_⟩ <;> decide

/-- Claim C2 (amended): `WithCancel`, `WithDeadline` and `WithTimeout` each
construct a new child node wrapping a fresh derivation of the parent's wrapped
context and link the child's parent-counter reference to the parent's counter,
but they leave the parent's counter unchanged — registration happens only
through `Child` (or the explicit opt-in). -/
theorem claim_C2_derivations_link_but_do_not_register
    (s : GoState) (p : Node) (d t : Nat) (hp : p.childrenWg < s.nextWg) :
    ((WithCancel s p).2.1.kind = NodeKind.derived ∧
     (WithCancel s p).2.1.parentWg = some p.childrenWg ∧
     (WithCancel s p).2.1.inner = s.nextInner ∧
     (WithCancel s p).1.inners (WithCancel s p).2.1.inner
        = stdWithCancel (s.inners p.inner) ∧
     (WithCancel s p).1.wgs p.childrenWg = s.wgs p.childrenWg) ∧
    ((WithDeadline s p d).2.1.kind = NodeKind.derived ∧
     (WithDeadline s p d).2.1.parentWg = some p.childrenWg ∧
     (WithDeadline s p d).2.1.inner = s.nextInner ∧
     (WithDeadline s p d).1.inners (WithDeadline s p d).2.1.inner
        = stdWithDeadline (s.inners p.inner) d ∧
     (WithDeadline s p d).1.wgs p.childrenWg = s.wgs p.childrenWg) ∧
    ((WithTimeout s p t).2.1.kind = NodeKind.derived ∧
     (WithTimeout s p t).2.1.parentWg = some p.childrenWg ∧
     (WithTimeout s p t).2.1.inner = s.nextInner ∧
     (WithTimeout s p t).1.inners (WithTimeout s p t).2.1.inner
        = stdWithTimeout (s.inners p.inner) t s.now ∧
     (WithTimeout s p t).1.wgs p.childrenWg = s.wgs p.childrenWg) := by
  have hne : p.childrenWg ≠ s.nextWg := Nat.ne_of_lt hp
  refine ⟨⟨rfl, rfl, rfl, upd_self _ _ _, ?_⟩,
          ⟨rfl, rfl, rfl, upd_self _ _ _, ?_⟩,
          ⟨rfl, rfl, rfl, upd_self _ _ _, ?_⟩⟩ <;>
    exact upd_ne _ _ _ _ hne

/-- Witness for the amended C2 at a concrete parent. -/
theorem claim_C2_witness :
    (WithCancel s1c rootA).1.wgs rootA.childrenWg = s1c.wgs rootA.childrenWg :=
  (claim_C2_derivations_link_but_do_not_register s1c rootA 5 5
    (by decide)).1.2.2.2.2

/-- Counterexample to C3 as stated: `looseN` was derived via `WithCancel` and
never registered (no registration call was made for it), yet invoking
`Finished()` on it decrements `rootA`'s counter from 1 (the registration of
`childA`) to 0 — it does modify a counter. -/
theorem claim_C3_counterexample :
    s4c.wgs rootA.childrenWg = 1 ∧
    (Finished s4c looseN).map (fun s => s.wgs rootA.childrenWg) = some 0 := by
  constructor <;> decide

/-- Claim C3 (amended): `Finished()` is a no-op (returns with the state
untouched) only on root nodes (`emptyCtx`); on a derived node (`ctxImpl`) it
always calls `Done()` on the node's parent counter, whether or not the node
was ever registered, faulting when that counter is zero. -/
theorem claim_C3_finished_noop_only_on_roots
    (s : GoState) (n : Node) :
    (n.kind = NodeKind.root → Finished s n = some s) ∧
    (n.kind = NodeKind.derived → ∀ w, n.parentWg = some w →
      Finished s n = wgDone s w) := by
  constructor
  · intro hk
    unfold Finished
    rw [hk]
  · intro hk w hw
    exact Finished_derived s n w hk hw

/-- Witness for the amended C3: `Finished` on the root `rootA` leaves the
state unchanged. -/
theorem claim_C3_witness : Finished s0c rootA = some s0c :=
  (claim_C3_finished_noop_only_on_roots s0c rootA).1 rfl

/-- Claim C4: calling `Finished()` more times than registrations are
outstanding on the shared counter produces the fatal fault (`none`, Go's
negative-WaitGroup-counter panic) rather than a silently negative value; under
the precondition that completions never exceed registrations the run succeeds,
the counter stays at registrations minus completions (never negative), and the
fault branch of `Done` fires exactly when a decrement from zero is attempted. -/
theorem claim_C4_overfinish_faults_never_negative
    (s : GoState) (w : Nat) (l : List Node)
    (hall : ∀ c ∈ l, c.kind = NodeKind.derived ∧ c.parentWg = some w) :
    (s.wgs w < l.length → finishAll s l = none) ∧
    (l.length ≤ s.wgs w →
      ∃ s2, finishAll s l = some s2 ∧ s2.wgs w = s.wgs w - l.length) ∧
    (∀ s3 : GoState, wgDone s3 w = none ↔ s3.wgs w = 0) := by
  refine ⟨fun hlt => finishAll_fault l s w hall hlt, fun hle => ?_, fun s3 => wgDone_eq_none_iff s3 w⟩
  obtain ⟨s2, hfa, hc, _, _, _, _⟩ := finishAll_ok l s w hall hle
  exact ⟨s2, hfa, hc⟩

/-- Witness for C4: in the concrete scenario `rootA` has one outstanding
registration (`childA`); calling `Finished` on it twice faults. -/
theorem claim_C4_witness :
    finishAll s3c [childA, childA] = none :=
  (claim_C4_overfinish_faults_never_negative s3c rootA.childrenWg
    [childA, childA] (by decide)).1 (by decide)

lemma NodeErr_derived (s : GoState) (n : Node) (hk : n.kind = NodeKind.derived) :
    NodeErr s n = ctxImplErr (innerErr s n.inner) := by
  unfold NodeErr
  rw [hk]

/-- Claim C5: on a derived node, `Err()` returns the package's `Canceled`
sentinel when the wrapped context was canceled, the package's
`DeadlineExceeded` sentinel when the wrapped context's deadline has elapsed,
no error when the wrapped context is still active, and any other error value
from the wrapped primitive unchanged. -/
theorem claim_C5_err_normalization (s : GoState) (n : Node)
    (hk : n.kind = NodeKind.derived) :
    ((s.inners n.inner).canceled = true → NodeErr s n = some Canceled) ∧
    ((s.inners n.inner).canceled = false → deadlinePassed s n.inner = true →
      NodeErr s n = some DeadlineExceeded) ∧
    ((s.inners n.inner).canceled = false → deadlinePassed s n.inner = false →
      (s.inners n.inner).extraErr = none → NodeErr s n = none) ∧
    (∀ m, (s.inners n.inner).canceled = false → deadlinePassed s n.inner = false →
      (s.inners n.inner).extraErr = some (GoErr.other m) →
      NodeErr s n = some (GoErr.other m)) := by
  refine ⟨?_, ?_, ?_, ?_⟩
  · intro hc
    rw [NodeErr_derived s n hk]
    have h : innerErr s n.inner = some GoErr.canceled := by
      simp [innerErr, hc]
    rw [h]
    rfl
  · intro hc hd
    rw [NodeErr_derived s n hk]
    have h : innerErr s n.inner = some GoErr.deadlineExceeded := by
      simp [innerErr, hc, hd]
    rw [h]
    rfl
  · intro hc hd he
    rw [NodeErr_derived s n hk]
    have h : innerErr s n.inner = none := by
      simp [innerErr, hc, hd, he]
    rw [h]
    rfl
  · intro m hc hd he
    rw [NodeErr_derived s n hk]
    have h : innerErr s n.inner = some (GoErr.other m) := by
      simp [innerErr, hc, hd, he]
    rw [h]
    rfl

/-- Witness for C5: canceling the `WithCancel`-derived node `looseN` through
its cancel handle makes its `Err()` the package's `Canceled` sentinel, while
before cancellation its `Err()` was no error. -/
theorem claim_C5_witness :
    NodeErr s5c looseN = some Canceled ∧ NodeErr s4c looseN = none :=
  ⟨(claim_C5_err_normalization s5c looseN (by decide)).1 (by decide),
   (claim_C5_err_normalization s4c looseN (by decide)).2.2.1
     (by decide) (by decide) (by decide)⟩

/-- Claim C6: invoking a cancel function (which cancels some wrapped context
`i`, in particular the handle returned by `WithCancel`/`WithDeadline`/
`WithTimeout`) or the elapsing of a deadline or timeout (advancing the clock)
leaves every completion counter unchanged — there is no implicit `Finished` —
so no node's `Wait` is released or blocked by it. -/
theorem claim_C6_cancellation_leaves_counters_unchanged
    (s : GoState) (i t : Nat) (n : Node) (w : Nat) :
    (cancel s i).wgs w = s.wgs w ∧
    (setTime s t).wgs w = s.wgs w ∧
    (Wait (cancel s i) n).isSome = (Wait s n).isSome ∧
    (Wait (setTime s t) n).isSome = (Wait s n).isSome := by
  refine ⟨rfl, rfl, ?_, ?_⟩ <;>
  · simp only [Wait, cancel, setTime]
    by_cases h : s.wgs n.childrenWg = 0 <;> simp [h]

/-- Claim C7: two parent nodes with distinct children counters do not
interfere: running the `Finished` calls of children registered against `A`'s
counter decrements only `A`'s counter and leaves `B`'s counter — and hence the
outcome of `B`'s `Wait` — unchanged (and symmetrically for `B`, since `A` and
`B` range over all such pairs).  Nodes created by different constructor calls
always have distinct children counters (each allocation takes a fresh id). -/
theorem claim_C7_independent_parents_do_not_interfere
    (s : GoState) (A B : Node) (l : List Node)
    (hAB : A.childrenWg ≠ B.childrenWg)
    (hall : ∀ c ∈ l, c.kind = NodeKind.derived ∧ c.parentWg = some A.childrenWg)
    (hlen : l.length ≤ s.wgs A.childrenWg) :
    ∃ s2, finishAll s l = some s2 ∧
      s2.wgs A.childrenWg = s.wgs A.childrenWg - l.length ∧
      s2.wgs B.childrenWg = s.wgs B.childrenWg ∧
      (Wait s2 B).isSome = (Wait s B).isSome := by
  obtain ⟨s2, hfa, hcA, hframe, _, _, _⟩ :=
    finishAll_ok l s A.childrenWg hall hlen
  have hB : s2.wgs B.childrenWg = s.wgs B.childrenWg :=
    hframe B.childrenWg (fun h => hAB h.symm)
  refine ⟨s2, hfa, hcA, hB, ?_⟩
  rw [Bool.eq_iff_iff, Wait_isSome_iff, Wait_isSome_iff, hB]

/-- Witness for C7: completing `rootA`'s registered child `childA` leaves
`rootB`'s counter (holding the registration of `childB`) unchanged and does
not unblock `rootB`'s `Wait`. -/
theorem claim_C7_witness :
    ∃ s2, finishAll s3c [childA] = some s2 ∧
      s2.wgs rootA.childrenWg = s3c.wgs rootA.childrenWg - 1 ∧
      s2.wgs rootB.childrenWg = s3c.wgs rootB.childrenWg ∧
      (Wait s2 rootB).isSome = (Wait s3c rootB).isSome :=
  claim_C7_independent_parents_do_not_interfere s3c rootA rootB [childA]
    (by decide) (by decide) (by decide)

/-- Claim C8: `Wait` on a node whose own counter has no outstanding
registrations returns immediately (with the state untouched), and the
operation is reentrant: any number of consecutive calls all return, while each
individual call blocks exactly when the current outstanding count is
non-zero. -/
theorem claim_C8_wait_immediate_and_reentrant
    (s : GoState) (n : Node) :
    (s.wgs n.childrenWg = 0 → ∀ k, iterWait k s n = some s) ∧
    (Wait s n = none ↔ s.wgs n.childrenWg ≠ 0) ∧
    (∀ s2, Wait s n = some s2 → s2 = s) := by
  refine ⟨?_, ?_, ?_⟩
  · intro h k
    have hw : Wait s n = some s := by
      unfold Wait
      simp [h]
    induction k with
    | zero => rfl
    | succ k ih =>
      show (match Wait s n with
            | none => none
            | some s1 => iterWait k s1 n) = some s
      rw [hw]
      exact ih
  · unfold Wait
    by_cases h : s.wgs n.childrenWg = 0 <;> simp [h]
  · intro s2 h
    unfold Wait at h
    by_cases hc : s.wgs n.childrenWg = 0
    · rw [if_pos hc] at h
      exact (Option.some.injEq _ _ ▸ h).symm
    · rw [if_neg hc] at h
      exact absurd h (by simp)

/-- Witness for C8: `rootB` has no outstanding registrations right after
creation, so three consecutive `Wait` calls all return immediately. -/
theorem claim_C8_witness : iterWait 3 s1c rootB = some s1c :=
  (claim_C8_wait_immediate_and_reentrant s1c rootB).1 (by decide) 3

/-- Claim C9: the package's re-exported sentinels `Canceled` and
`DeadlineExceeded` are the identical error values of the wrapped primitive
(`context.Canceled` / `context.DeadlineExceeded`), so an equality comparison
against the package's identifier succeeds exactly when the comparison against
the primitive's identifier does. -/
theorem claim_C9_sentinels_are_the_primitive_values :
    Canceled = GoErr.canceled ∧
    DeadlineExceeded = GoErr.deadlineExceeded ∧
    ∀ e : GoErr,
      (e = Canceled ↔ e = GoErr.canceled) ∧
      (e = DeadlineExceeded ↔ e = GoErr.deadlineExceeded) :=
  ⟨rfl, rfl, fun _ => ⟨Iff.rfl, Iff.rfl⟩⟩

lemma ctxImplErr_id (e : Option GoErr) : ctxImplErr e = e := by
  cases e with
  | none => rfl
  | some g => cases g <;> rfl

/-- Claim C10: the node returned by `Child(parent)` shares the parent's
wrapped context handle instead of deriving a new one: its `Deadline()`,
`Done()`, `Err()` and `Value(key)` observations agree with the parent's, and
the child has no cancellation scope of its own (no new wrapped context is
allocated; the wrapped-context heap is untouched). -/
theorem claim_C10_child_shares_parent_handle
    (s : GoState) (p : Node) (key : String) :
    (Child s p).2.inner = p.inner ∧
    NodeDeadline (Child s p).1 (Child s p).2 = NodeDeadline (Child s p).1 p ∧
    NodeDoneClosed (Child s p).1 (Child s p).2 = NodeDoneClosed (Child s p).1 p ∧
    NodeErr (Child s p).1 (Child s p).2 = NodeErr (Child s p).1 p ∧
    NodeValue (Child s p).1 (Child s p).2 key = NodeValue (Child s p).1 p key ∧
    (Child s p).1.nextInner = s.nextInner ∧
    (Child s p).1.inners = s.inners := by
  refine ⟨rfl, rfl, rfl, ?_, rfl, rfl, rfl⟩
  show ctxImplErr (innerErr (Child s p).1 p.inner) = NodeErr (Child s p).1 p
  rw [ctxImplErr_id]
  rcases p with ⟨k, i, pw, cw⟩
  cases k
  · rfl
  · exact (ctxImplErr_id _).symm
